import Mathlib

/-!
Verification of the report-submission and analysis-polling workflow of the
incident dashboard (frontend `services/api.js` and `App.js`).

The poller `pollDisasterAnalysis` in the source registers a `setInterval`
callback with a fixed 3000 ms cadence.  Each timer fire increments a shared
`attempts` counter and starts a fetch; when the fetch resolves the callback
resumes: on success it invokes `onUpdate(disaster)` and then clears the
interval when `disaster.status === 'analyzed'` or `attempts >= maxAttempts`;
on failure it logs and clears the interval.  `clearInterval` stops future
timer fires but does not cancel fetches already in flight: their
continuations still run.

We embed this as a discrete-event simulation: timer fires happen at times
k * 3000 (k = 1, 2, ...) while the interval is not cleared; the fetch started
at fire k resolves at k * 3000 + latency k; an external `stop` call
(`clearInterval(handle)`) may occur at a given wall-clock time.  Events are
processed in time order (ties: completion, then stop, then fire; all the
statements proved below are insensitive to the tie order, and the concrete
runs used as inputs have no ties).
-/

namespace Trishul

/-- A disaster report snapshot as returned by `GET /disasters/{id}/`.
Fields follow the JSON object consumed by the frontend. -/
structure Disaster where
  id : Nat
  disaster_type : String
  address : String
  description : String
  status : String
  confidence_score : Option Nat
  severity_score : Option Nat
  population_affected : Option Nat
deriving Repr, DecidableEq

/-- One invocation of the caller-supplied sink `onUpdate`: the wall-clock
time at which it ran, the tick (timer-fire index) whose fetch produced it,
and the snapshot passed to the sink. -/
structure Delivery where
  time : Nat
  tick : Nat
  snapshot : Disaster
deriving Repr, DecidableEq

/-- Environment of one poll session: the transport.  `fetchResult k` is the
outcome of the `getDisaster` request started at tick `k`; `latency k` is the
time that request takes to resolve, in milliseconds. -/
structure PollEnv where
  fetchResult : Nat → Except Unit Disaster
  latency : Nat → Nat

/-- Wall-clock time of timer fire `k`: `setInterval(cb, 3000)` first fires
3000 ms after registration and every 3000 ms thereafter. -/
def fireTime (k : Nat) : Nat := k * 3000

/-- Wall-clock time at which the fetch started at tick `k` resolves. -/
def completionTime (env : PollEnv) (k : Nat) : Nat :=
  fireTime k + env.latency k

/-- State of one poll session (one `pollDisasterAnalysis` call).
`attempts` is the JS `attempts` variable; `cleared` records whether
`clearInterval(interval)` has run; `nextFire` is the index of the next
timer fire; `inflight` lists ticks whose fetch has started but not yet
resolved; `log` is the sequence of `onUpdate` invocations so far;
`stopPending` is the time of a not-yet-processed external `stop` call. -/
structure SimState where
  attempts : Nat
  cleared : Bool
  nextFire : Nat
  inflight : List Nat
  log : List Delivery
  stopPending : Option Nat
deriving Repr, DecidableEq

/-- Earliest completion among the in-flight fetches: returns its time and
tick (earliest-started wins ties). -/
def nextCompletion (env : PollEnv) : List Nat → Option (Nat × Nat)
  | [] => none
  | j :: rest =>
    match nextCompletion env rest with
    | none => some (completionTime env j, j)
    | some (t, j') =>
      if completionTime env j ≤ t then some (completionTime env j, j)
      else some (t, j')

/-- A timer fire: the callback runs `attempts++` and starts
`getDisaster(disasterId)`, then suspends at the `await`. -/
def doFire (st : SimState) : SimState :=
  { st with attempts := st.attempts + 1,
            inflight := st.inflight ++ [st.nextFire],
            nextFire := st.nextFire + 1 }

/-- Resumption of the callback of tick `j` when its fetch resolves at time
`t`.  On success: `onUpdate(disaster)` unconditionally, then
`clearInterval` when `disaster.status === 'analyzed' || attempts >=
maxAttempts` (reading the current value of `attempts`).  On failure: the
error is only logged and the interval is cleared; `onUpdate` is not
invoked. -/
def doCompletion (env : PollEnv) (maxAttempts : Nat) (st : SimState)
    (t : Nat) (j : Nat) : SimState :=
  match env.fetchResult j with
  | Except.error _ =>
    { st with inflight := st.inflight.erase j, cleared := true }
  | Except.ok d =>
    if d.status = "analyzed" ∨ maxAttempts ≤ st.attempts then
      { st with inflight := st.inflight.erase j,
                log := st.log ++ [⟨t, j, d⟩], cleared := true }
    else
      { st with inflight := st.inflight.erase j,
                log := st.log ++ [⟨t, j, d⟩] }

/-- External `stop(handle)`, i.e. `clearInterval(handle)`: future timer
fires stop; nothing else is touched. -/
def doStop (st : SimState) : SimState :=
  { st with cleared := true, stopPending := none }

/-- Process the next event of the session in time order.  Once the interval
is cleared only completions of in-flight fetches remain; a state with the
interval cleared and nothing in flight is final and the step is the
identity. -/
def step (env : PollEnv) (maxAttempts : Nat) (st : SimState) : SimState :=
  match st.cleared, nextCompletion env st.inflight, st.stopPending with
  | true, none, _ => st
  | true, some (t, j), _ => doCompletion env maxAttempts st t j
  | false, none, none => doFire st
  | false, none, some s =>
    if s < fireTime st.nextFire then doStop st else doFire st
  | false, some (t, j), none =>
    if t ≤ fireTime st.nextFire then doCompletion env maxAttempts st t j
    else doFire st
  | false, some (t, j), some s =>
    if t ≤ s ∧ t ≤ fireTime st.nextFire then
      doCompletion env maxAttempts st t j
    else if s < fireTime st.nextFire then doStop st
    else doFire st

/-- Run `fuel` events of the session. -/
def pollSim (env : PollEnv) (maxAttempts : Nat) : Nat → SimState → SimState
  | 0, st => st
  | fuel + 1, st => pollSim env maxAttempts fuel (step env maxAttempts st)

/-- State of the session immediately after `pollDisasterAnalysis` returns
its handle: zero attempts, nothing in flight, nothing delivered. -/
def pollInit (stopTime : Option Nat) : SimState :=
  ⟨0, false, 1, [], [], stopTime⟩

/-- The poll session: `pollDisasterAnalysis(disasterId, onUpdate,
maxAttempts = 20)` observed after `fuel` events, with an optional external
`stop(handle)` call at time `stopTime`. -/
def pollDisasterAnalysis (env : PollEnv) (maxAttempts : Nat)
    (stopTime : Option Nat) (fuel : Nat) : SimState :=
  pollSim env maxAttempts fuel (pollInit stopTime)

/-- The session is over: the interval is cleared and no fetch is in
flight. -/
def isDone (st : SimState) : Bool := st.cleared && st.inflight.isEmpty

/-- Every fetch of the session resolves within one polling interval.  This
is the regime in which `setInterval` ticks do not overlap. -/
def FastFetches (env : PollEnv) : Prop := ∀ k, env.latency k < 3000

/-- A run is sequential when every delivery of a tick happens before any
later tick fires. -/
def SequentialRun (st : SimState) : Prop :=
  ∀ e ∈ st.log, ∀ k, k < st.nextFire → e.tick < k → e.time < fireTime k

/-! ### The sequential reference run

When every fetch resolves within one interval, the session alternates
strictly: fire `k`, completion `k`, fire `k+1`, ...  `seqRound` is one such
fire/completion round; `seqIter n` is the session after `n` rounds.  Below
we prove that under `FastFetches` the event simulation agrees with this
round model. -/

/-- Session summary at a round boundary. -/
structure RoundState where
  log : List Delivery
  attempts : Nat
  cleared : Bool
deriving Repr, DecidableEq

/-- One fire/completion round of the sequential regime. -/
def seqRound (env : PollEnv) (maxAttempts : Nat) (r : RoundState) :
    RoundState :=
  if r.cleared then r
  else
    match env.fetchResult (r.attempts + 1) with
    | Except.error _ => ⟨r.log, r.attempts + 1, true⟩
    | Except.ok d =>
      ⟨r.log ++ [⟨completionTime env (r.attempts + 1), r.attempts + 1, d⟩],
       r.attempts + 1,
       decide (d.status = "analyzed" ∨ maxAttempts ≤ r.attempts + 1)⟩

/-- The sequential run after `n` rounds. -/
def seqIter (env : PollEnv) (maxAttempts : Nat) : Nat → RoundState
  | 0 => ⟨[], 0, false⟩
  | n + 1 => seqRound env maxAttempts (seqIter env maxAttempts n)

/-- The simulator state corresponding to a round boundary: nothing in
flight, the next fire is `attempts + 1`. -/
def roundStateToSim (r : RoundState) : SimState :=
  ⟨r.attempts, r.cleared, r.attempts + 1, [], r.log, none⟩

end Trishul

namespace Trishul

/-! ### The submission form (`handleSubmit` in `App.js`) -/

/-- The new-incident form draft.  All fields are controlled text inputs,
hence strings. -/
structure Draft where
  location : String
  description : String
  predicted : String
  confidence : String
  keywords : String
deriving Repr, DecidableEq

/-- Body of `POST /disasters/` as built by `handleSubmit`: exactly the
three fields of the object literal passed to `reportDisaster`. -/
structure CreateRequest where
  disaster_type : String
  address : String
  description : String
deriving Repr, DecidableEq

/-- What `handleSubmit` does before/instead of the network: either it
rejects the draft client-side and returns, or it issues the create
request. -/
inductive SubmitAction where
  | validationError (msg : String)
  | createRequest (req : CreateRequest)
deriving Repr, DecidableEq

/-- `handleSubmit` from `App.js`: `if (!draft.location)` sets the error
message and returns (for a controlled string input, `!s` is truthy exactly
when the string is empty); otherwise it calls `reportDisaster` with
`disaster_type: draft.predicted || "fire"`, `address: draft.location`,
`description: draft.description` (for strings, `a || b` is `b` exactly
when `a` is empty). -/
def handleSubmit (draft : Draft) : SubmitAction :=
  if draft.location = "" then
    SubmitAction.validationError "Please enter a location."
  else
    SubmitAction.createRequest
      ⟨if draft.predicted = "" then "fire" else draft.predicted,
       draft.location, draft.description⟩

/-- Number of network requests issued by the submit path itself. -/
def networkCalls : SubmitAction → Nat
  | SubmitAction.validationError _ => 0
  | SubmitAction.createRequest _ => 1

/-! ### The UI sink installed by `handleSubmit` -/

/-- The slice of `App.js` component state touched by the polling sink:
`analysisResult`, `analyzing`, and the number of
`fetchActiveDisasters()` refreshes triggered by the sink. -/
structure UIState where
  analysisResult : Option Disaster
  analyzing : Bool
  activeRefreshes : Nat
deriving Repr, DecidableEq

/-- The `onUpdate` callback passed to `pollDisasterAnalysis` by
`handleSubmit`: store the snapshot; if `disaster.status === "analyzed"`,
clear `analyzing` and refresh the active-incident list. -/
def onUpdateSink (st : UIState) (d : Disaster) : UIState :=
  let st1 := { st with analysisResult := some d }
  if d.status = "analyzed" then
    { st1 with analyzing := false, activeRefreshes := st1.activeRefreshes + 1 }
  else st1

/-! ### Concrete transports used as inputs below -/

/-- A snapshot still being analyzed. -/
def dAnalyzing : Disaster := ⟨1, "fire", "12 Main St", "smoke", "analyzing", none, none, none⟩

/-- A terminal, analyzed snapshot. -/
def dAnalyzed : Disaster := ⟨1, "fire", "12 Main St", "smoke", "analyzed", none, none, none⟩

/-- Every fetch succeeds with a non-terminal snapshot and takes 10000 ms,
far longer than the 3000 ms cadence. -/
def envSlow : PollEnv := ⟨fun _ => Except.ok dAnalyzing, fun _ => 10000⟩

/-- Tick 1 returns the analyzed snapshot after 4000 ms; later ticks return
non-terminal snapshots after 2000 ms. -/
def envLateAnalyzed : PollEnv :=
  ⟨fun k => if k = 1 then Except.ok dAnalyzed else Except.ok dAnalyzing,
   fun k => if k = 1 then 4000 else 2000⟩

/-- Tick 1 fails after 4000 ms; later ticks succeed after 100 ms. -/
def envSlowFailure : PollEnv :=
  ⟨fun k => if k = 1 then Except.error () else Except.ok dAnalyzing,
   fun k => if k = 1 then 4000 else 100⟩

/-- Every fetch succeeds with a non-terminal snapshot after 4000 ms. -/
def envOverlap : PollEnv := ⟨fun _ => Except.ok dAnalyzing, fun _ => 4000⟩

/-- Every fetch succeeds with a non-terminal snapshot after 2500 ms. -/
def envMedium : PollEnv := ⟨fun _ => Except.ok dAnalyzing, fun _ => 2500⟩

/-- Every fetch succeeds with a non-terminal snapshot after 100 ms. -/
def envFast : PollEnv := ⟨fun _ => Except.ok dAnalyzing, fun _ => 100⟩

/-- Every fetch succeeds with the analyzed snapshot after 100 ms. -/
def envFastAnalyzed : PollEnv := ⟨fun _ => Except.ok dAnalyzed, fun _ => 100⟩

/-- Tick 1 succeeds non-terminal, tick 2 fails; every fetch takes 100 ms. -/
def envFastFailAt2 : PollEnv :=
  ⟨fun k => if k = 2 then Except.error () else Except.ok dAnalyzing,
   fun _ => 100⟩

/-- A draft whose location is whitespace-only (blank but not empty). -/
def blankDraft : Draft := ⟨" ", "", "", "", ""⟩

/-- A draft with an empty location. -/
def emptyDraft : Draft := ⟨"", "desc", "", "", ""⟩

/-- A valid draft with no predicted type. -/
def validDraft : Draft := ⟨"123 Main St", "smoke", "", "0.9", "fire,smoke"⟩

/-- A valid draft with a predicted type. -/
def predictedDraft : Draft := ⟨"123 Main St", "water", "flood", "", ""⟩

/-- UI state right after `handleSubmit` sets `analyzing` to true. -/
def uiAnalyzing : UIState := ⟨none, true, 0⟩

end Trishul

namespace Trishul

/-! ### Basic simulator lemmas -/

theorem pollSim_succ (env : PollEnv) (M fuel : Nat) (st : SimState) :
    pollSim env M (fuel + 1) st = pollSim env M fuel (step env M st) := rfl

theorem pollSim_add (env : PollEnv) (M a b : Nat) (st : SimState) :
    pollSim env M (a + b) st = pollSim env M b (pollSim env M a st) := by
  induction a generalizing st with
  | zero => rw [Nat.zero_add]; rfl
  | succ a ih =>
    rw [Nat.succ_add]
    exact ih (step env M st)

theorem pollSim_pres (env : PollEnv) (M : Nat) (P : SimState → Prop)
    (hstep : ∀ st, P st → P (step env M st)) :
    ∀ (fuel : Nat) (st : SimState), P st → P (pollSim env M fuel st) := by
  intro fuel
  induction fuel with
  | zero => intro st h; exact h
  | succ fuel ih => intro st h; exact ih (step env M st) (hstep st h)

theorem nextCompletion_mem (env : PollEnv) :
    ∀ (l : List Nat) (t j : Nat), nextCompletion env l = some (t, j) →
      j ∈ l ∧ t = completionTime env j := by
  intro l
  induction l with
  | nil => intro t j h; simp [nextCompletion] at h
  | cons a rest ih =>
    intro t j h
    unfold nextCompletion at h
    cases hr : nextCompletion env rest with
    | none =>
      rw [hr] at h
      simp only [Option.some.injEq, Prod.mk.injEq] at h
      exact ⟨by simp [← h.2], by rw [← h.1, ← h.2]⟩
    | some p =>
      obtain ⟨t', j'⟩ := p
      rw [hr] at h
      simp only at h
      split at h
      · simp only [Option.some.injEq, Prod.mk.injEq] at h
        exact ⟨by simp [← h.2], by rw [← h.1, ← h.2]⟩
      · simp only [Option.some.injEq, Prod.mk.injEq] at h
        obtain ⟨hm, ht⟩ := ih t' j' hr
        exact ⟨by simp [← h.2, hm], by rw [← h.1, ← h.2]; exact ht⟩

/-! ### The simulation agrees with the round model under `FastFetches` -/

theorem step_round_cleared (env : PollEnv) (M : Nat) (r : RoundState)
    (h : r.cleared = true) :
    step env M (roundStateToSim r) = roundStateToSim r := by
  simp [roundStateToSim, step, h, nextCompletion]

theorem step_round_fire (env : PollEnv) (M : Nat) (L : List Delivery) (m : Nat) :
    step env M (roundStateToSim ⟨L, m, false⟩) =
      ⟨m + 1, false, m + 2, [m + 1], L, none⟩ := by
  simp [roundStateToSim, step, nextCompletion, doFire]

theorem seqRound_cleared (env : PollEnv) (M : Nat) (r : RoundState)
    (h : r.cleared = true) : seqRound env M r = r := by
  simp [seqRound, h]

theorem seqRound_attempts (env : PollEnv) (M : Nat) (r : RoundState)
    (h : r.cleared = false) :
    (seqRound env M r).attempts = r.attempts + 1 := by
  unfold seqRound
  rw [h]
  simp only [Bool.false_eq_true, if_false]
  cases env.fetchResult (r.attempts + 1) <;> rfl

theorem round_twoStep (env : PollEnv) (M : Nat) (hf : FastFetches env)
    (r : RoundState) :
    pollSim env M 2 (roundStateToSim r) = roundStateToSim (seqRound env M r) := by
  obtain ⟨L, m, c⟩ := r
  show step env M (step env M (roundStateToSim ⟨L, m, c⟩)) = _
  cases c with
  | true =>
    rw [step_round_cleared env M _ rfl, step_round_cleared env M _ rfl,
        seqRound_cleared env M _ rfl]
  | false =>
    rw [step_round_fire]
    have hlat := hf (m + 1)
    have hle : completionTime env (m + 1) ≤ fireTime (m + 2) := by
      unfold completionTime fireTime at *
      omega
    unfold step
    simp only [nextCompletion, if_false]
    rw [if_pos hle]
    unfold doCompletion
    unfold seqRound
    simp only [Bool.false_eq_true, if_false]
    cases hres : env.fetchResult (m + 1) with
    | error e => simp [roundStateToSim]
    | ok d =>
      by_cases hcond : d.status = "analyzed" ∨ M ≤ m + 1
      · simp [roundStateToSim, hcond]
      · simp [roundStateToSim, hcond]

theorem poll_even (env : PollEnv) (M : Nat) (hf : FastFetches env) :
    ∀ n, pollDisasterAnalysis env M none (2 * n) =
      roundStateToSim (seqIter env M n) := by
  intro n
  induction n with
  | zero => rfl
  | succ n ih =>
    show pollSim env M (2 * (n + 1)) (pollInit none) = _
    have h2 : 2 * (n + 1) = 2 * n + 2 := by ring
    rw [h2, pollSim_add]
    have hcast : pollSim env M (2 * n) (pollInit none) =
        roundStateToSim (seqIter env M n) := ih
    rw [hcast, round_twoStep env M hf]
    rfl

theorem poll_odd (env : PollEnv) (M : Nat) (hf : FastFetches env) (n : Nat) :
    pollDisasterAnalysis env M none (2 * n + 1) =
      step env M (roundStateToSim (seqIter env M n)) := by
  show pollSim env M (2 * n + 1) (pollInit none) = _
  rw [pollSim_add]
  have hcast : pollSim env M (2 * n) (pollInit none) =
      roundStateToSim (seqIter env M n) := poll_even env M hf n
  rw [hcast]
  rfl

theorem step_round_fire_of (env : PollEnv) (M : Nat) (r : RoundState)
    (h : r.cleared = false) :
    step env M (roundStateToSim r) =
      ⟨r.attempts + 1, false, r.attempts + 2, [r.attempts + 1], r.log, none⟩ := by
  obtain ⟨L, m, c⟩ := r
  cases c with
  | false => exact step_round_fire env M L m
  | true => simp at h

theorem poll_log (env : PollEnv) (M : Nat) (hf : FastFetches env) :
    ∀ fuel, (pollDisasterAnalysis env M none fuel).log =
      (seqIter env M (fuel / 2)).log := by
  intro fuel
  obtain ⟨n, hn | hn⟩ : ∃ n, fuel = 2 * n ∨ fuel = 2 * n + 1 :=
    ⟨fuel / 2, by omega⟩
  · subst hn
    have hidx : 2 * n / 2 = n := by omega
    rw [hidx, poll_even env M hf]
    rfl
  · subst hn
    have hidx : (2 * n + 1) / 2 = n := by omega
    rw [hidx, poll_odd env M hf]
    cases hc : (seqIter env M n).cleared with
    | false => rw [step_round_fire_of env M _ hc]
    | true => rw [step_round_cleared env M _ hc]; rfl

theorem seqIter_attempts_step (env : PollEnv) (M n : Nat) :
    (seqIter env M n).attempts ≤ (seqIter env M (n + 1)).attempts := by
  show _ ≤ (seqRound env M (seqIter env M n)).attempts
  cases hc : (seqIter env M n).cleared with
  | false => rw [seqRound_attempts env M _ hc]; omega
  | true => rw [seqRound_cleared env M _ hc]

theorem poll_nextFire (env : PollEnv) (M : Nat) (hf : FastFetches env) :
    ∀ fuel, (pollDisasterAnalysis env M none fuel).nextFire ≤
      (seqIter env M (fuel / 2 + 1)).attempts + 1 := by
  intro fuel
  obtain ⟨n, hn | hn⟩ : ∃ n, fuel = 2 * n ∨ fuel = 2 * n + 1 :=
    ⟨fuel / 2, by omega⟩
  · subst hn
    have hidx : 2 * n / 2 = n := by omega
    rw [hidx, poll_even env M hf]
    have := seqIter_attempts_step env M n
    show (seqIter env M n).attempts + 1 ≤ _
    omega
  · subst hn
    have hidx : (2 * n + 1) / 2 = n := by omega
    rw [hidx, poll_odd env M hf]
    cases hc : (seqIter env M n).cleared with
    | false =>
      have hat : (seqIter env M (n + 1)).attempts =
          (seqIter env M n).attempts + 1 := seqRound_attempts env M _ hc
      rw [step_round_fire_of env M _ hc]
      show (seqIter env M n).attempts + 2 ≤ _
      omega
    | true =>
      rw [step_round_cleared env M _ hc]
      have := seqIter_attempts_step env M n
      show (seqIter env M n).attempts + 1 ≤ _
      omega

/-! ### Invariants of the sequential round model -/

theorem seqRound_rec (env : PollEnv) (M : Nat) (r : RoundState)
    (h : r.cleared = false) :
    (∃ err, env.fetchResult (r.attempts + 1) = Except.error err ∧
        seqRound env M r = ⟨r.log, r.attempts + 1, true⟩) ∨
    (∃ d, env.fetchResult (r.attempts + 1) = Except.ok d ∧
        seqRound env M r =
          ⟨r.log ++
             [⟨completionTime env (r.attempts + 1), r.attempts + 1, d⟩],
           r.attempts + 1,
           decide (d.status = "analyzed" ∨ M ≤ r.attempts + 1)⟩) := by
  unfold seqRound
  rw [h]
  simp only [Bool.false_eq_true, if_false]
  cases hres : env.fetchResult (r.attempts + 1) with
  | error err => exact Or.inl ⟨err, rfl, rfl⟩
  | ok d => exact Or.inr ⟨d, rfl, rfl⟩

theorem seqIter_attempts_mono (env : PollEnv) (M : Nat) {n m : Nat}
    (h : n ≤ m) :
    (seqIter env M n).attempts ≤ (seqIter env M m).attempts := by
  induction h with
  | refl => exact Nat.le_refl _
  | step h ih => exact Nat.le_trans ih (seqIter_attempts_step env M _)

theorem seqIter_stable (env : PollEnv) (M n : Nat)
    (hc : (seqIter env M n).cleared = true) :
    ∀ k, seqIter env M (n + k) = seqIter env M n := by
  intro k
  induction k with
  | zero => rfl
  | succ k ih =>
    show seqRound env M (seqIter env M (n + k)) = _
    rw [ih, seqRound_cleared env M _ hc]

theorem seqIter_log_step (env : PollEnv) (M n : Nat) :
    ∀ e ∈ (seqIter env M n).log, e ∈ (seqIter env M (n + 1)).log := by
  intro e he
  show e ∈ (seqRound env M (seqIter env M n)).log
  cases hc : (seqIter env M n).cleared with
  | true => rw [seqRound_cleared env M _ hc]; exact he
  | false =>
    rcases seqRound_rec env M _ hc with ⟨err, _, heq⟩ | ⟨d, _, heq⟩
    · rw [heq]; exact he
    · rw [heq]
      exact List.mem_append_left _ he

theorem seqIter_log_mono (env : PollEnv) (M : Nat) {n m : Nat} (h : n ≤ m) :
    ∀ e ∈ (seqIter env M n).log, e ∈ (seqIter env M m).log := by
  induction h with
  | refl => exact fun e he => he
  | step h ih => exact fun e he => seqIter_log_step env M _ e (ih e he)

theorem seqIter_entries (env : PollEnv) (M : Nat) :
    ∀ n, ∀ e ∈ (seqIter env M n).log,
      1 ≤ e.tick ∧ e.tick ≤ (seqIter env M n).attempts ∧
      env.fetchResult e.tick = Except.ok e.snapshot ∧
      e.time = completionTime env e.tick := by
  intro n
  induction n with
  | zero => intro e he; simp [seqIter] at he
  | succ n ih =>
    intro e he
    show _ ∧ e.tick ≤ (seqRound env M (seqIter env M n)).attempts ∧ _ ∧ _
    cases hc : (seqIter env M n).cleared with
    | true =>
      rw [seqRound_cleared env M _ hc]
      rw [show seqIter env M (n + 1) = seqIter env M n from
            seqRound_cleared env M _ hc] at he
      exact ih e he
    | false =>
      have hat : (seqRound env M (seqIter env M n)).attempts =
          (seqIter env M n).attempts + 1 := seqRound_attempts env M _ hc
      rw [hat]
      rcases seqRound_rec env M _ hc with ⟨err, hres, heq⟩ | ⟨d, hres, heq⟩
      · rw [show seqIter env M (n + 1) = seqRound env M (seqIter env M n)
              from rfl, heq] at he
        obtain ⟨h1, h2, h3, h4⟩ := ih e he
        exact ⟨h1, by omega, h3, h4⟩
      · rw [show seqIter env M (n + 1) = seqRound env M (seqIter env M n)
              from rfl, heq] at he
        rcases List.mem_append.mp he with hold | hnew
        · obtain ⟨h1, h2, h3, h4⟩ := ih e hold
          exact ⟨h1, by omega, h3, h4⟩
        · have : e = ⟨completionTime env ((seqIter env M n).attempts + 1),
              (seqIter env M n).attempts + 1, d⟩ := by
            simpa using hnew
          subst this
          exact ⟨Nat.succ_le_succ (Nat.zero_le _), Nat.le_refl _, hres, rfl⟩

theorem seqIter_not_analyzed (env : PollEnv) (M : Nat) :
    ∀ n, (seqIter env M n).cleared = false →
      ∀ e ∈ (seqIter env M n).log, e.snapshot.status ≠ "analyzed" := by
  intro n
  induction n with
  | zero => intro _ e he; simp [seqIter] at he
  | succ n ih =>
    intro hc' e he
    cases hc : (seqIter env M n).cleared with
    | true =>
      rw [show seqIter env M (n + 1) = seqIter env M n from
            seqRound_cleared env M _ hc] at hc'
      rw [hc] at hc'
      cases hc'
    | false =>
      rcases seqRound_rec env M _ hc with ⟨err, hres, heq⟩ | ⟨d, hres, heq⟩
      · rw [show seqIter env M (n + 1) = seqRound env M (seqIter env M n)
              from rfl, heq] at hc'
        cases hc'
      · rw [show seqIter env M (n + 1) = seqRound env M (seqIter env M n)
              from rfl, heq] at hc' he
        simp only at hc' he
        rcases List.mem_append.mp he with hold | hnew
        · exact ih hc e hold
        · have heqd : e.snapshot = d := by
            have : e = ⟨completionTime env ((seqIter env M n).attempts + 1),
                (seqIter env M n).attempts + 1, d⟩ := by simpa using hnew
            rw [this]
          rw [heqd]
          intro hanalyzed
          rw [decide_eq_false_iff_not] at hc'
          exact hc' (Or.inl hanalyzed)

theorem seqIter_analyzed_attempts (env : PollEnv) (M : Nat) :
    ∀ n, ∀ e ∈ (seqIter env M n).log, e.snapshot.status = "analyzed" →
      (seqIter env M n).attempts = e.tick := by
  intro n
  induction n with
  | zero => intro e he; simp [seqIter] at he
  | succ n ih =>
    intro e he hstat
    cases hc : (seqIter env M n).cleared with
    | true =>
      rw [show seqIter env M (n + 1) = seqIter env M n from
            seqRound_cleared env M _ hc] at he ⊢
      exact ih e he hstat
    | false =>
      rcases seqRound_rec env M _ hc with ⟨err, hres, heq⟩ | ⟨d, hres, heq⟩
      · rw [show seqIter env M (n + 1) = seqRound env M (seqIter env M n)
              from rfl, heq] at he ⊢
        exact absurd hstat (seqIter_not_analyzed env M n hc e he)
      · rw [show seqIter env M (n + 1) = seqRound env M (seqIter env M n)
              from rfl, heq] at he ⊢
        simp only at he ⊢
        rcases List.mem_append.mp he with hold | hnew
        · exact absurd hstat (seqIter_not_analyzed env M n hc e hold)
        · have : e = ⟨completionTime env ((seqIter env M n).attempts + 1),
              (seqIter env M n).attempts + 1, d⟩ := by simpa using hnew
          rw [this]

theorem seqIter_len (env : PollEnv) (M : Nat) (hM : 1 ≤ M) :
    ∀ n, (seqIter env M n).log.length ≤ M ∧
      ((seqIter env M n).cleared = false →
        (seqIter env M n).attempts < M ∧
        (seqIter env M n).log.length ≤ (seqIter env M n).attempts) := by
  intro n
  induction n with
  | zero => exact ⟨by simp [seqIter], fun _ => ⟨hM, by simp [seqIter]⟩⟩
  | succ n ih =>
    cases hc : (seqIter env M n).cleared with
    | true =>
      rw [show seqIter env M (n + 1) = seqIter env M n from
            seqRound_cleared env M _ hc]
      exact ih
    | false =>
      obtain ⟨hlen, hrun⟩ := ih
      obtain ⟨hlt, hla⟩ := hrun hc
      rcases seqRound_rec env M _ hc with ⟨err, hres, heq⟩ | ⟨d, hres, heq⟩
      · rw [show seqIter env M (n + 1) = seqRound env M (seqIter env M n)
              from rfl, heq]
        exact ⟨hlen, fun h => by cases h⟩
      · rw [show seqIter env M (n + 1) = seqRound env M (seqIter env M n)
              from rfl, heq]
        constructor
        · simp only [List.length_append, List.length_cons, List.length_nil]
          omega
        · intro hcl
          simp only at hcl
          rw [decide_eq_false_iff_not] at hcl
          constructor
          · simp only
            omega
          · simp only [List.length_append, List.length_cons, List.length_nil]
            omega

theorem seqIter_ok_upto (env : PollEnv) (M B : Nat) (hM : 1 ≤ M)
    (hok : ∀ k, 1 ≤ k → k ≤ B → ∃ d, env.fetchResult k = Except.ok d ∧
      d.status ≠ "analyzed") :
    ∀ n, n ≤ B → n ≤ M → (seqIter env M n).attempts = n ∧
      (seqIter env M n).log.length = n ∧
      (seqIter env M n).cleared = decide (M ≤ n) := by
  intro n
  induction n with
  | zero =>
    intro _ _
    refine ⟨rfl, rfl, ?_⟩
    show false = decide (M ≤ 0)
    have : ¬ M ≤ 0 := by omega
    simp [this]
  | succ n ih =>
    intro hB hle
    obtain ⟨hat, hlog, hcl⟩ := ih (by omega) (by omega)
    have hc : (seqIter env M n).cleared = false := by
      rw [hcl]
      have : ¬ M ≤ n := by omega
      simp [this]
    obtain ⟨d, hres, hd⟩ := hok (n + 1) (by omega) hB
    rcases seqRound_rec env M _ hc with ⟨err, hres', heq⟩ | ⟨d', hres', heq⟩
    · rw [hat] at hres'
      rw [hres] at hres'
      cases hres'
    · rw [hat] at hres' heq
      rw [hres] at hres'
      have hdd : d' = d := by
        injection hres' with h
        exact h.symm
      subst hdd
      rw [show seqIter env M (n + 1) = seqRound env M (seqIter env M n)
            from rfl, heq]
      refine ⟨rfl, ?_, ?_⟩
      · simp only [List.length_append, List.length_cons, List.length_nil]
        omega
      · simp only
        congr 1
        simp [hd]

theorem isDone_round (r : RoundState) :
    isDone (roundStateToSim r) = r.cleared := by
  simp [isDone, roundStateToSim]

/-! ### General invariants (no assumption on latencies) -/

theorem doFire_basic (st : SimState)
    (h1 : ∀ j ∈ st.inflight, 1 ≤ j) (h2 : 1 ≤ st.nextFire)
    (h3 : ∀ e ∈ st.log, 3000 ≤ e.time) :
    (∀ i ∈ (doFire st).inflight, 1 ≤ i) ∧
      1 ≤ (doFire st).nextFire ∧ (∀ e ∈ (doFire st).log, 3000 ≤ e.time) := by
  refine ⟨?_, ?_, h3⟩
  · intro i hi
    simp only [doFire, List.mem_append, List.mem_singleton] at hi
    rcases hi with hi | hi
    · exact h1 i hi
    · omega
  · show 1 ≤ st.nextFire + 1
    omega

theorem doCompletion_basic (env : PollEnv) (M : Nat) (st : SimState)
    (t j : Nat) (hnc : nextCompletion env st.inflight = some (t, j))
    (h1 : ∀ i ∈ st.inflight, 1 ≤ i) (h2 : 1 ≤ st.nextFire)
    (h3 : ∀ e ∈ st.log, 3000 ≤ e.time) :
    (∀ i ∈ (doCompletion env M st t j).inflight, 1 ≤ i) ∧
      1 ≤ (doCompletion env M st t j).nextFire ∧
      (∀ e ∈ (doCompletion env M st t j).log, 3000 ≤ e.time) := by
  obtain ⟨hjmem, ht⟩ := nextCompletion_mem env _ _ _ hnc
  have hj1 : 1 ≤ j := h1 j hjmem
  have ht3 : 3000 ≤ t := by
    rw [ht]
    unfold completionTime fireTime
    have : 3000 ≤ j * 3000 := by omega
    omega
  have herase : ∀ i ∈ st.inflight.erase j, 1 ≤ i :=
    fun i hi => h1 i (List.mem_of_mem_erase hi)
  cases hres : env.fetchResult j with
  | error err =>
    simp only [doCompletion, hres]
    exact ⟨herase, h2, h3⟩
  | ok d =>
    have hlog : ∀ e ∈ st.log ++ [(⟨t, j, d⟩ : Delivery)], 3000 ≤ e.time := by
      intro e he
      rcases List.mem_append.mp he with hold | hnew
      · exact h3 e hold
      · rw [List.mem_singleton.mp hnew]
        exact ht3
    by_cases hcond : d.status = "analyzed" ∨ M ≤ st.attempts
    · simp only [doCompletion, hres, if_pos hcond]
      exact ⟨herase, h2, hlog⟩
    · simp only [doCompletion, hres, if_neg hcond]
      exact ⟨herase, h2, hlog⟩

theorem step_pres_basic (env : PollEnv) (M : Nat) (st : SimState)
    (h : (∀ j ∈ st.inflight, 1 ≤ j) ∧ 1 ≤ st.nextFire ∧
      (∀ e ∈ st.log, 3000 ≤ e.time)) :
    (∀ j ∈ (step env M st).inflight, 1 ≤ j) ∧ 1 ≤ (step env M st).nextFire ∧
      (∀ e ∈ (step env M st).log, 3000 ≤ e.time) := by
  obtain ⟨h1, h2, h3⟩ := h
  have hfire := doFire_basic st h1 h2 h3
  have hstop : (∀ i ∈ (doStop st).inflight, 1 ≤ i) ∧
      1 ≤ (doStop st).nextFire ∧ (∀ e ∈ (doStop st).log, 3000 ≤ e.time) :=
    ⟨h1, h2, h3⟩
  cases hcl : st.cleared with
  | true =>
    cases hnc : nextCompletion env st.inflight with
    | none => simpa [step, hcl, hnc] using ⟨h1, h2, h3⟩
    | some p =>
      obtain ⟨t, j⟩ := p
      simpa [step, hcl, hnc] using doCompletion_basic env M st t j hnc h1 h2 h3
  | false =>
    cases hnc : nextCompletion env st.inflight with
    | none =>
      cases hsp : st.stopPending with
      | none => simpa [step, hcl, hnc, hsp] using hfire
      | some s =>
        by_cases hlt : s < fireTime st.nextFire
        · simpa [step, hcl, hnc, hsp, hlt] using hstop
        · simpa [step, hcl, hnc, hsp, hlt] using hfire
    | some p =>
      obtain ⟨t, j⟩ := p
      have hcompb := doCompletion_basic env M st t j hnc h1 h2 h3
      cases hsp : st.stopPending with
      | none =>
        by_cases hle : t ≤ fireTime st.nextFire
        · simpa [step, hcl, hnc, hsp, hle] using hcompb
        · simpa [step, hcl, hnc, hsp, hle] using hfire
      | some s =>
        by_cases hle : t ≤ s ∧ t ≤ fireTime st.nextFire
        · simpa [step, hcl, hnc, hsp, hle] using hcompb
        · by_cases hlt : s < fireTime st.nextFire
          · simpa [step, hcl, hnc, hsp, hle, hlt] using hstop
          · simpa [step, hcl, hnc, hsp, hle, hlt] using hfire

theorem poll_inv_basic (env : PollEnv) (M : Nat) (stopTime : Option Nat)
    (fuel : Nat) :
    (∀ j ∈ (pollDisasterAnalysis env M stopTime fuel).inflight, 1 ≤ j) ∧
    1 ≤ (pollDisasterAnalysis env M stopTime fuel).nextFire ∧
    (∀ e ∈ (pollDisasterAnalysis env M stopTime fuel).log, 3000 ≤ e.time) := by
  refine pollSim_pres env M _ (fun st h => step_pres_basic env M st h) fuel
    (pollInit stopTime) ?_
  refine ⟨?_, ?_, ?_⟩
  · intro j hj; simp [pollInit] at hj
  · exact Nat.le_refl 1
  · intro e he; simp [pollInit] at he

theorem doCompletion_frame (env : PollEnv) (M : Nat) (st : SimState)
    (t j : Nat) :
    (doCompletion env M st t j).stopPending = st.stopPending ∧
      (doCompletion env M st t j).nextFire = st.nextFire ∧
      (st.cleared = true → (doCompletion env M st t j).cleared = true) := by
  cases hres : env.fetchResult j with
  | error err => simp [doCompletion, hres]
  | ok d =>
    by_cases hcond : d.status = "analyzed" ∨ M ≤ st.attempts
    · simp [doCompletion, hres, hcond]
    · simp [doCompletion, hres, hcond]

theorem step_pres_stop (env : PollEnv) (M : Nat) (s N : Nat)
    (hs : s < (N + 1) * 3000) (st : SimState)
    (h : (st.cleared = true ∨ st.stopPending = some s) ∧
      st.nextFire ≤ N + 1) :
    ((step env M st).cleared = true ∨ (step env M st).stopPending = some s) ∧
      (step env M st).nextFire ≤ N + 1 := by
  obtain ⟨h1, h2⟩ := h
  have hfiregoal : st.nextFire ≤ N →
      (((doFire st).cleared = true ∨ (doFire st).stopPending = some s) ∧
        (doFire st).nextFire ≤ N + 1) := by
    intro hnf
    rcases h1 with h1 | h1
    · exact ⟨Or.inl h1, by show st.nextFire + 1 ≤ N + 1; omega⟩
    · exact ⟨Or.inr h1, by show st.nextFire + 1 ≤ N + 1; omega⟩
  have hcompgoal : ∀ t j,
      (((doCompletion env M st t j).cleared = true ∨
          (doCompletion env M st t j).stopPending = some s) ∧
        (doCompletion env M st t j).nextFire ≤ N + 1) := by
    intro t j
    obtain ⟨hp, hn, hc⟩ := doCompletion_frame env M st t j
    rcases h1 with h1 | h1
    · exact ⟨Or.inl (hc h1), by rw [hn]; exact h2⟩
    · exact ⟨Or.inr (by rw [hp]; exact h1), by rw [hn]; exact h2⟩
  have hstopgoal :
      (((doStop st).cleared = true ∨ (doStop st).stopPending = some s) ∧
        (doStop st).nextFire ≤ N + 1) := ⟨Or.inl rfl, h2⟩
  cases hcl : st.cleared with
  | true =>
    cases hnc : nextCompletion env st.inflight with
    | none =>
      have hstep : step env M st = st := by simp [step, hcl, hnc]
      rw [hstep]
      exact ⟨Or.inl hcl, h2⟩
    | some p =>
      obtain ⟨t, j⟩ := p
      have hstep : step env M st = doCompletion env M st t j := by
        simp [step, hcl, hnc]
      rw [hstep]
      exact hcompgoal t j
  | false =>
    have hpend : st.stopPending = some s := by
      rcases h1 with h1 | h1
      · rw [hcl] at h1; cases h1
      · exact h1
    have hnotlt : ¬ s < fireTime st.nextFire → st.nextFire ≤ N := by
      intro hlt
      unfold fireTime at hlt
      by_contra hcon
      have heq : st.nextFire = N + 1 := by omega
      rw [heq] at hlt
      omega
    cases hnc : nextCompletion env st.inflight with
    | none =>
      by_cases hlt : s < fireTime st.nextFire
      · have hstep : step env M st = doStop st := by
          simp [step, hcl, hnc, hpend, hlt]
        rw [hstep]
        exact hstopgoal
      · have hstep : step env M st = doFire st := by
          simp [step, hcl, hnc, hpend, hlt]
        rw [hstep]
        exact hfiregoal (hnotlt hlt)
    | some p =>
      obtain ⟨t, j⟩ := p
      by_cases hle : t ≤ s ∧ t ≤ fireTime st.nextFire
      · have hstep : step env M st = doCompletion env M st t j := by
          simp only [step, hcl, hnc, hpend]
          rw [if_pos hle]
        rw [hstep]
        exact hcompgoal t j
      · by_cases hlt : s < fireTime st.nextFire
        · have hstep : step env M st = doStop st := by
            simp only [step, hcl, hnc, hpend]
            rw [if_neg hle, if_pos hlt]
          rw [hstep]
          exact hstopgoal
        · have hstep : step env M st = doFire st := by
            simp only [step, hcl, hnc, hpend]
            rw [if_neg hle, if_neg hlt]
          rw [hstep]
          exact hfiregoal (hnotlt hlt)

theorem poll_stop_nextFire (env : PollEnv) (M s N : Nat)
    (hs : s < (N + 1) * 3000) :
    ∀ fuel, (pollDisasterAnalysis env M (some s) fuel).nextFire ≤ N + 1 := by
  intro fuel
  have h := pollSim_pres env M
    (fun st => (st.cleared = true ∨ st.stopPending = some s) ∧
      st.nextFire ≤ N + 1)
    (fun st h => step_pres_stop env M s N hs st h) fuel (pollInit (some s))
    ⟨Or.inr rfl, Nat.succ_le_succ (Nat.zero_le N)⟩
  exact h.2

/-! ### Claim C1 -/

/-- C1, as stated, is false of the code: with `maxAttempts = 2` and fetches
that take 10000 ms, `setInterval` keeps firing on its 3000 ms cadence while
the first fetch is still in flight, so the sink is invoked 4 times — more
than `maxAttempts`. -/
theorem c1_counterexample :
    ¬ ((pollDisasterAnalysis envSlow 2 none 12).log.length ≤ 2) := by
  decide

/-- C1 (amended): when every fetch resolves within the 3000 ms interval and
`maxAttempts ≥ 1`, `onUpdate` is invoked at most `maxAttempts` times; and
when moreover every fetch succeeds and no snapshot ever has status
"analyzed", it is invoked exactly `maxAttempts` times (once per tick),
after which the session terminates. -/
theorem c1_sink_bound (env : PollEnv) (M : Nat) (hf : FastFetches env)
    (hM : 1 ≤ M) :
    (∀ fuel, (pollDisasterAnalysis env M none fuel).log.length ≤ M) ∧
    ((∀ k, 1 ≤ k → ∃ d, env.fetchResult k = Except.ok d ∧
        d.status ≠ "analyzed") →
      (pollDisasterAnalysis env M none (2 * M)).log.length = M ∧
      isDone (pollDisasterAnalysis env M none (2 * M)) = true) := by
  constructor
  · intro fuel
    rw [poll_log env M hf fuel]
    exact (seqIter_len env M hM (fuel / 2)).1
  · intro hok
    obtain ⟨hat, hlen, hcl⟩ :=
      seqIter_ok_upto env M M hM (fun k h1 _ => hok k h1) M (Nat.le_refl M)
        (Nat.le_refl M)
    constructor
    · rw [poll_log env M hf (2 * M)]
      have hidx : 2 * M / 2 = M := by omega
      rw [hidx]
      exact hlen
    · rw [poll_even env M hf M, isDone_round, hcl]
      simp

/-- Witness for `c1_sink_bound` at a concrete fast transport. -/
theorem c1_sink_bound_witness :
    (pollDisasterAnalysis envFast 3 none 9).log.length ≤ 3 ∧
    (pollDisasterAnalysis envFast 3 none 6).log.length = 3 ∧
    isDone (pollDisasterAnalysis envFast 3 none 6) = true := by
  have h := c1_sink_bound envFast 3
    (fun k => by show (100 : Nat) < 3000; decide) (by decide)
  have hok : ∀ k, 1 ≤ k → ∃ d, envFast.fetchResult k = Except.ok d ∧
      d.status ≠ "analyzed" := fun k _ => ⟨dAnalyzing, rfl, by decide⟩
  exact ⟨h.1 9, (h.2 hok).1, (h.2 hok).2⟩

/-! ### Claim C2 -/

/-- C2, as stated, is false of the code: tick 1 delivers the "analyzed"
snapshot at 7000 ms, but tick 2 had already fired at 6000 ms (its fetch was
in flight before the terminal delivery) and is itself delivered at
8000 ms. -/
theorem c2_counterexample :
    (⟨7000, 1, dAnalyzed⟩ : Delivery) ∈
        (pollDisasterAnalysis envLateAnalyzed 20 none 10).log ∧
      dAnalyzed.status = "analyzed" ∧
      ¬ ((pollDisasterAnalysis envLateAnalyzed 20 none 10).nextFire ≤ 1 + 1) := by
  decide

/-- C2 (amended): when every fetch resolves within the 3000 ms interval, if
the snapshot delivered at tick K has status "analyzed" then no tick K+1 is
ever scheduled; and (unconditionally) the stop condition is evaluated after
the snapshot has been handed to `onUpdate`, so a successful completion
always appends its delivery — the terminal "analyzed" snapshot is itself
delivered. -/
theorem c2_analyzed_stops (env : PollEnv) (M : Nat) (hf : FastFetches env)
    (fuel0 t K : Nat) (d : Disaster)
    (hmem : (⟨t, K, d⟩ : Delivery) ∈
      (pollDisasterAnalysis env M none fuel0).log)
    (ha : d.status = "analyzed") :
    (∀ fuel, (pollDisasterAnalysis env M none fuel).nextFire ≤ K + 1) ∧
    (∀ (st : SimState) (t' j : Nat) (d' : Disaster),
      env.fetchResult j = Except.ok d' →
      (⟨t', j, d'⟩ : Delivery) ∈ (doCompletion env M st t' j).log) := by
  constructor
  · rw [poll_log env M hf fuel0] at hmem
    have hn0 : (seqIter env M (fuel0 / 2)).attempts = K :=
      seqIter_analyzed_attempts env M (fuel0 / 2) _ hmem ha
    have hUB : ∀ n, (seqIter env M n).attempts ≤ K := by
      intro n
      by_cases hle : n ≤ fuel0 / 2
      · have := seqIter_attempts_mono env M hle
        omega
      · have hge : fuel0 / 2 ≤ n := by omega
        have hmem' := seqIter_log_mono env M hge _ hmem
        have heqn : (seqIter env M n).attempts = K :=
          seqIter_analyzed_attempts env M n _ hmem' ha
        omega
    intro fuel
    have h1 := poll_nextFire env M hf fuel
    have h2 := hUB (fuel / 2 + 1)
    omega
  · intro st t' j d' hres
    have hlogeq : (doCompletion env M st t' j).log =
        st.log ++ [⟨t', j, d'⟩] := by
      by_cases hcond : d'.status = "analyzed" ∨ M ≤ st.attempts
      · simp [doCompletion, hres, hcond]
      · simp [doCompletion, hres, hcond]
    rw [hlogeq]
    exact List.mem_append_right _ (List.mem_singleton_self _)

/-- Witness for `c2_analyzed_stops` at a concrete transport whose tick 1
returns the analyzed snapshot within the interval. -/
theorem c2_analyzed_stops_witness :
    (pollDisasterAnalysis envFastAnalyzed 20 none 9).nextFire ≤ 2 ∧
    (⟨3100, 1, dAnalyzed⟩ : Delivery) ∈
      (doCompletion envFastAnalyzed 20 (pollInit none) 3100 1).log := by
  have h := c2_analyzed_stops envFastAnalyzed 20
    (fun k => by show (100 : Nat) < 3000; decide) 2 3100 1 dAnalyzed
    (by decide) (by decide)
  exact ⟨h.1 9, h.2 (pollInit none) 3100 1 dAnalyzed rfl⟩

/-! ### Claim C3 -/

/-- C3, as stated, is false of the code: tick 1's fetch fails (resolving at
7000 ms), but tick 2 had already fired at 6000 ms and its fetch succeeds at
6100 ms, so the sink is still invoked — tick K+1 does occur after the
failure at tick K. -/
theorem c3_counterexample :
    envSlowFailure.fetchResult 1 = Except.error () ∧
    (⟨6100, 2, dAnalyzing⟩ : Delivery) ∈
      (pollDisasterAnalysis envSlowFailure 20 none 10).log :=
  ⟨rfl, by decide⟩

/-- C3 (amended): when every fetch resolves within the 3000 ms interval, a
fetch failure at tick K (reached after successful non-"analyzed" ticks,
with K ≤ maxAttempts) delivers nothing at or after tick K — every delivery
has tick < K, so no error object ever reaches the sink — no tick beyond
K+1 is ever scheduled, and the session is over after the failing
completion. -/
theorem c3_failure_halts (env : PollEnv) (M K : Nat) (hf : FastFetches env)
    (hK1 : 1 ≤ K) (hKM : K ≤ M)
    (hprev : ∀ j, 1 ≤ j → j < K → ∃ d, env.fetchResult j = Except.ok d ∧
      d.status ≠ "analyzed")
    (herr : env.fetchResult K = Except.error ()) :
    (∀ fuel, ∀ e ∈ (pollDisasterAnalysis env M none fuel).log, e.tick < K) ∧
    (∀ fuel, (pollDisasterAnalysis env M none fuel).nextFire ≤ K + 1) ∧
    isDone (pollDisasterAnalysis env M none (2 * K)) = true := by
  have hM : 1 ≤ M := Nat.le_trans hK1 hKM
  have hupto := seqIter_ok_upto env M (K - 1) hM
    (fun k h1 hB => hprev k h1 (by omega))
  obtain ⟨hatK1, hlenK1, hclK1'⟩ :=
    hupto (K - 1) (Nat.le_refl _) (by omega)
  have hclK1 : (seqIter env M (K - 1)).cleared = false := by
    rw [hclK1']
    have : ¬ M ≤ K - 1 := by omega
    simp [this]
  have hiterK : seqIter env M K =
      ⟨(seqIter env M (K - 1)).log, K, true⟩ := by
    have hKeq : K - 1 + 1 = K := by omega
    rcases seqRound_rec env M _ hclK1 with ⟨err, hres', heq⟩ |
        ⟨d', hres', heq⟩
    · rw [hatK1, hKeq] at hres' heq
      rw [← hKeq]
      show seqRound env M (seqIter env M (K - 1)) = _
      rw [heq, hKeq]
    · rw [hatK1, hKeq] at hres'
      rw [herr] at hres'
      cases hres'
  have hstable : ∀ n, K ≤ n → seqIter env M n = seqIter env M K := by
    intro n hn
    have hcl : (seqIter env M K).cleared = true := by rw [hiterK]
    have := seqIter_stable env M K hcl (n - K)
    rw [show K + (n - K) = n from by omega] at this
    exact this
  have hattUB : ∀ n, (seqIter env M n).attempts ≤ K := by
    intro n
    by_cases hle : n ≤ K - 1
    · obtain ⟨hat, _, _⟩ := hupto n hle (by omega)
      omega
    · rw [hstable n (by omega), hiterK]
  have hlogUB : ∀ n, ∀ e ∈ (seqIter env M n).log, e.tick < K := by
    have hbase : ∀ e ∈ (seqIter env M (K - 1)).log, e.tick < K := by
      intro e he
      obtain ⟨_, h2, _, _⟩ := seqIter_entries env M (K - 1) e he
      omega
    intro n e he
    by_cases hle : n ≤ K - 1
    · exact hbase e (seqIter_log_mono env M hle e he)
    · rw [hstable n (by omega), hiterK] at he
      exact hbase e he
  refine ⟨?_, ?_, ?_⟩
  · intro fuel e he
    rw [poll_log env M hf fuel] at he
    exact hlogUB (fuel / 2) e he
  · intro fuel
    have h1 := poll_nextFire env M hf fuel
    have h2 := hattUB (fuel / 2 + 1)
    omega
  · rw [poll_even env M hf K, isDone_round, hiterK]

/-- Witness for `c3_failure_halts`: tick 1 succeeds, tick 2 fails, all
within the interval. -/
theorem c3_failure_halts_witness :
    (⟨3100, 1, dAnalyzing⟩ : Delivery).tick < 2 ∧
    (pollDisasterAnalysis envFastFailAt2 20 none 8).nextFire ≤ 3 ∧
    isDone (pollDisasterAnalysis envFastFailAt2 20 none 4) = true := by
  have h := c3_failure_halts envFastFailAt2 20 2
    (fun k => by show (100 : Nat) < 3000; decide) (by decide) (by decide)
    (fun j h1 hlt => ⟨dAnalyzing, by interval_cases j; rfl, by decide⟩)
    rfl
  exact ⟨h.1 8 ⟨3100, 1, dAnalyzing⟩ (by decide), h.2.1 8, h.2.2⟩

/-! ### Claim C4 -/

/-- C4, as stated, is false of the code: `setInterval` fires on a fixed
3000 ms cadence regardless of in-flight latency.  With 4000 ms fetches,
tick 2 fires at 6000 ms while tick 1's result is only delivered at
7000 ms — tick 2's fetch begins before tick 1's delivery. -/
theorem c4_counterexample :
    ¬ SequentialRun (pollDisasterAnalysis envOverlap 20 none 5) := by
  intro h
  exact absurd
    (h ⟨7000, 1, dAnalyzing⟩ (by decide) 2 (by decide) (by decide))
    (by decide)

/-- C4 (amended): ticks fire on a fixed 3000 ms cadence; when every fetch
resolves within that interval, ticks are sequential and never overlap —
tick N's result is delivered to `onUpdate` before tick N+1's fetch begins,
so `onUpdate` is never re-entered for the session. -/
theorem c4_sequential (env : PollEnv) (M : Nat) (hf : FastFetches env) :
    ∀ fuel, SequentialRun (pollDisasterAnalysis env M none fuel) := by
  intro fuel e he k hk htick
  rw [poll_log env M hf fuel] at he
  obtain ⟨h1, h2, h3, h4⟩ := seqIter_entries env M (fuel / 2) e he
  have hlat := hf e.tick
  rw [h4]
  unfold completionTime fireTime
  omega

/-- Witness for `c4_sequential`: with 100 ms fetches, tick 1's delivery at
3100 ms precedes tick 2's fire at 6000 ms. -/
theorem c4_sequential_witness : (3100 : Nat) < fireTime 2 :=
  c4_sequential envFast 20 (fun k => by show (100 : Nat) < 3000; decide) 6
    ⟨3100, 1, dAnalyzing⟩ (by decide) 2 (by decide) (by decide)

/-! ### Claim C5 -/

/-- C5, as stated, is false of the code: `clearInterval` does not discard
the in-flight fetch.  With `stop` called at 4000 ms while tick 1's
2500 ms fetch is in flight, the fetch resolves at 5500 ms and `onUpdate`
is still invoked after the stop. -/
theorem c5_counterexample :
    ∃ e ∈ (pollDisasterAnalysis envMedium 20 (some 4000) 8).log,
      4000 < e.time := by
  decide

/-- C5 (amended): calling `stop(handle)` before tick N+1's scheduled time
guarantees tick N+1 never fires; but the result of a fetch already in
flight at the moment of stop is not discarded — when it resolves
successfully its snapshot is still delivered to `onUpdate`. -/
theorem c5_stop_behavior (env : PollEnv) (M s N : Nat)
    (hs : s < (N + 1) * 3000) :
    (∀ fuel, (pollDisasterAnalysis env M (some s) fuel).nextFire ≤ N + 1) ∧
    (∀ (st : SimState) (j : Nat) (d : Disaster), st.cleared = true →
      st.inflight = [j] → env.fetchResult j = Except.ok d →
      (step env M st).log = st.log ++ [⟨completionTime env j, j, d⟩]) := by
  constructor
  · exact poll_stop_nextFire env M s N hs
  · intro st j d hcl hinf hres
    have hnc : nextCompletion env st.inflight =
        some (completionTime env j, j) := by
      rw [hinf]
      simp [nextCompletion]
    have hstep : step env M st = doCompletion env M st (completionTime env j) j := by
      simp [step, hcl, hnc]
    rw [hstep]
    by_cases hcond : d.status = "analyzed" ∨ M ≤ st.attempts
    · simp [doCompletion, hres, hcond]
    · simp [doCompletion, hres, hcond]

/-- Witness for `c5_stop_behavior`: stop at 4000 ms, tick 1 in flight. -/
theorem c5_stop_behavior_witness :
    (pollDisasterAnalysis envMedium 20 (some 4000) 8).nextFire ≤ 2 ∧
    (step envMedium 20 ⟨1, true, 2, [1], [], none⟩).log =
      [] ++ [⟨completionTime envMedium 1, 1, dAnalyzing⟩] := by
  have h := c5_stop_behavior envMedium 20 4000 1 (by decide)
  exact ⟨h.1 8, h.2 ⟨1, true, 2, [1], [], none⟩ 1 dAnalyzing rfl rfl rfl⟩

/-! ### Claim C6 -/

/-- C6, as stated, is false of the code: `if (!draft.location)` only
rejects the empty string.  A whitespace-only location `" "` is truthy, so
the draft passes validation and the create request is issued. -/
theorem c6_counterexample :
    blankDraft.location = " " ∧
    handleSubmit blankDraft =
      SubmitAction.createRequest ⟨"fire", " ", ""⟩ ∧
    networkCalls (handleSubmit blankDraft) = 1 := by
  decide

/-- C6 (amended): a draft whose location is the empty string fails with the
validation error and performs zero network calls; but a non-empty location
— including a whitespace-only one — passes validation and the create
request is issued. -/
theorem c6_validation (draft : Draft) :
    (draft.location = "" →
      handleSubmit draft =
          SubmitAction.validationError "Please enter a location." ∧
        networkCalls (handleSubmit draft) = 0) ∧
    (draft.location ≠ "" → networkCalls (handleSubmit draft) = 1) := by
  constructor
  · intro h
    constructor
    · simp [handleSubmit, h]
    · simp [handleSubmit, h, networkCalls]
  · intro h
    simp [handleSubmit, h, networkCalls]

/-- Witness for `c6_validation` at an empty-location draft and a valid
draft. -/
theorem c6_validation_witness :
    (handleSubmit emptyDraft =
        SubmitAction.validationError "Please enter a location." ∧
      networkCalls (handleSubmit emptyDraft) = 0) ∧
    networkCalls (handleSubmit validDraft) = 1 :=
  ⟨(c6_validation emptyDraft).1 rfl, (c6_validation validDraft).2 (by decide)⟩

/-! ### Claim C7 -/

/-- C7: for a draft with a non-empty location, the create request's
`disaster_type` is the literal "fire" when the predicted type is empty
(`draft.predicted || "fire"`), and the predicted type itself when
non-empty. -/
theorem c7_default_type (draft : Draft) (hloc : draft.location ≠ "") :
    (draft.predicted = "" →
      handleSubmit draft = SubmitAction.createRequest
        ⟨"fire", draft.location, draft.description⟩) ∧
    (draft.predicted ≠ "" →
      handleSubmit draft = SubmitAction.createRequest
        ⟨draft.predicted, draft.location, draft.description⟩) := by
  constructor
  · intro hp
    simp [handleSubmit, hloc, hp]
  · intro hp
    simp [handleSubmit, hloc, hp]

/-- Witness for `c7_default_type` at concrete drafts. -/
theorem c7_default_type_witness :
    handleSubmit validDraft = SubmitAction.createRequest
        ⟨"fire", "123 Main St", "smoke"⟩ ∧
    handleSubmit predictedDraft = SubmitAction.createRequest
        ⟨"flood", "123 Main St", "water"⟩ :=
  ⟨(c7_default_type validDraft (by decide)).1 rfl,
   (c7_default_type predictedDraft (by decide)).2 (by decide)⟩

/-! ### Claim C8 -/

/-- C8: the create request body is exactly the three fields
`disaster_type`, `address`, `description` (the `CreateRequest` record);
the draft's `confidence` and `keywords` fields never influence the
request. -/
theorem c8_request_body (draft : Draft) (hloc : draft.location ≠ "") :
    handleSubmit draft = SubmitAction.createRequest
      ⟨if draft.predicted = "" then "fire" else draft.predicted,
       draft.location, draft.description⟩ ∧
    (∀ c k, handleSubmit { draft with confidence := c, keywords := k } =
      handleSubmit draft) := by
  constructor
  · simp [handleSubmit, hloc]
  · intro c k
    rfl

/-- Witness for `c8_request_body` at a concrete draft. -/
theorem c8_request_body_witness :
    handleSubmit validDraft = SubmitAction.createRequest
        ⟨"fire", "123 Main St", "smoke"⟩ ∧
    handleSubmit { validDraft with confidence := "x", keywords := "y" } =
      handleSubmit validDraft := by
  have h := c8_request_body validDraft (by decide)
  exact ⟨h.1, h.2 "x" "y"⟩

/-! ### Claim C9 -/

theorem foldl_sink_analyzing (ds : List Disaster) :
    ∀ st : UIState, st.analyzing = true →
      (∀ d ∈ ds, d.status ≠ "analyzed") →
      (ds.foldl onUpdateSink st).analyzing = true := by
  induction ds with
  | nil => intro st h _; exact h
  | cons d ds ih =>
    intro st h hall
    show (ds.foldl onUpdateSink (onUpdateSink st d)).analyzing = true
    apply ih
    · have hd := hall d (List.mem_cons_self d ds)
      simp [onUpdateSink, hd, h]
    · intro d' hd'
      exact hall d' (List.mem_cons_of_mem _ hd')

/-- C9: the sink installed by `handleSubmit` clears `analyzing` exactly on
a snapshot whose status is "analyzed"; every delivery with any other
status preserves `analyzing = true`, so a session whose deliveries never
include an "analyzed" snapshot (exhaustion or fetch failure) leaves
`analyzing` true permanently. -/
theorem c9_analyzing_flag (st : UIState) :
    (∀ d, (onUpdateSink st d).analyzing =
      if d.status = "analyzed" then false else st.analyzing) ∧
    (∀ ds : List Disaster, st.analyzing = true →
      (∀ d ∈ ds, d.status ≠ "analyzed") →
      (ds.foldl onUpdateSink st).analyzing = true) ∧
    (∀ (env : PollEnv) (M fuel : Nat), st.analyzing = true →
      (∀ e ∈ (pollDisasterAnalysis env M none fuel).log,
        e.snapshot.status ≠ "analyzed") →
      (((pollDisasterAnalysis env M none fuel).log.map
          (fun e => e.snapshot)).foldl onUpdateSink st).analyzing = true) := by
  refine ⟨?_, ?_, ?_⟩
  · intro d
    by_cases hd : d.status = "analyzed"
    · simp [onUpdateSink, hd]
    · simp [onUpdateSink, hd]
  · intro ds h hall
    exact foldl_sink_analyzing ds st h hall
  · intro env M fuel h hlog
    apply foldl_sink_analyzing _ st h
    intro d hd
    rw [List.mem_map] at hd
    obtain ⟨e, he, hde⟩ := hd
    rw [← hde]
    exact hlog e he

/-- Witness for `c9_analyzing_flag` at concrete snapshots and a concrete
session that never reports "analyzed". -/
theorem c9_analyzing_flag_witness :
    (onUpdateSink uiAnalyzing dAnalyzed).analyzing = false ∧
    ([dAnalyzing, dAnalyzing].foldl onUpdateSink uiAnalyzing).analyzing =
      true ∧
    (((pollDisasterAnalysis envFast 3 none 6).log.map
        (fun e => e.snapshot)).foldl onUpdateSink uiAnalyzing).analyzing =
      true := by
  have h := c9_analyzing_flag uiAnalyzing
  refine ⟨?_, h.2.1 [dAnalyzing, dAnalyzing] rfl (by decide),
    h.2.2 envFast 3 6 rfl (by decide)⟩
  rw [h.1 dAnalyzed]
  decide

/-! ### Claim C10 -/

/-- C10: `pollDisasterAnalysis` returns its handle synchronously — at that
moment nothing has been fetched and nothing delivered — and since
`setInterval(cb, 3000)` first fires 3000 ms after registration, every
delivery of the session happens at or after 3000 ms. -/
theorem c10_start_properties (env : PollEnv) (M : Nat)
    (stopTime : Option Nat) :
    (pollInit stopTime).log = [] ∧ (pollInit stopTime).inflight = [] ∧
    (∀ fuel, ∀ e ∈ (pollDisasterAnalysis env M stopTime fuel).log,
      3000 ≤ e.time) := by
  refine ⟨rfl, rfl, ?_⟩
  intro fuel
  exact (poll_inv_basic env M stopTime fuel).2.2

/-- Witness for `c10_start_properties` at a concrete session. -/
theorem c10_start_properties_witness :
    (pollInit none).log = [] ∧ (pollInit none).inflight = [] ∧
    (3000 : Nat) ≤ 3100 := by
  have h := c10_start_properties envFast 3 none
  exact ⟨h.1, h.2.1, h.2.2 2 ⟨3100, 1, dAnalyzing⟩ (by decide)⟩

end Trishul
